import Mathlib

/-!
Shallow embedding of `scripts/build.py` (npg_conda): the batch build
orchestrator that reads `<name> <version> <recipe path>` records from
standard input and runs `conda build` for each inside a Docker container.

External effects (docker pull, docker run, logging) are modelled as an
event trace; the outcome of each sequential `docker run` invocation is
supplied by an oracle `exec : Nat → ExecResult` indexed by record
position, since the external process is a black box to the script.
-/

namespace CondaBuild

/-- One parsed input line: `name, version, path = line.split()`. -/
structure BuildRecord where
  name : String
  version : String
  path : String
deriving DecidableEq

/-- The parsed command-line configuration (`args` in the script),
read once at startup and immutable afterwards. -/
structure Args where
  recipes_dir : String
  recipes_mount : String
  artefacts_dir : String
  artefacts_mount : String
  build_channel : List String
  irods_build_image : String
  conda_build_image : String
  remove_container : Bool
  conda_uid : Int
  conda_gid : Int
  dry_run : Bool

/-- Helper for Python `str.split()` (no argument): split on runs of
whitespace, discarding empty fields.  Structural recursion over the
character list, accumulating the current word reversed. -/
def wordsAux : List Char → List Char → List (List Char)
  | [], acc => if acc = [] then [] else [acc.reverse]
  | c :: cs, acc =>
      if c.isWhitespace then
        if acc = [] then wordsAux cs [] else acc.reverse :: wordsAux cs []
      else wordsAux cs (c :: acc)

/-- Python `line.split()`. -/
def pySplit (s : String) : List String :=
  (wordsAux s.data []).map String.mk

/-- `name, version, path = line.split()`: succeeds exactly when the line
has three whitespace-separated fields; otherwise Python raises
`ValueError` (modelled as `none`). -/
def parseLine (line : String) : Option BuildRecord :=
  match pySplit line with
  | [n, v, p] => some { name := n, version := v, path := p }
  | _ => none

/-- Python `s[:n]`: the first `n` characters (all of them when the
string is shorter). -/
def strSlice (s : String) (n : Nat) : String :=
  String.mk (s.data.take n)

/-- Image Resolver (lines 134-138): `build_image = args.conda_build_image`,
overridden by `args.irods_build_image` when
`name == "irods" and version[:4] == "4.1."`. -/
def selectImage (args : Args) (name version : String) : String :=
  if name = "irods" ∧ strSlice version 4 = "4.1." then
    args.irods_build_image
  else
    args.conda_build_image

/-- Shell script assembly (lines 140-150), translated statement by
statement; the channel loop is a left fold appending one
`conda config --add channels` statement per configured channel. -/
def buildScript (args : Args) (path : String) : String :=
  let s1 := "export CONDA_BLD_PATH=\"" ++ args.artefacts_mount ++ "\" ; "
  let s2 := s1 ++ "conda config --set auto_update_conda False ; "
  let s3 := args.build_channel.foldl
      (fun acc c => acc ++ ("conda config --add channels " ++ c ++ " ; ")) s2
  s3 ++ ("cd \"" ++ args.recipes_mount ++ "\" && conda build " ++ path)

/-- A `--mount` argument value: `source=...,target=...,type=bind`. -/
def mountArg (src target : String) : String :=
  "source=" ++ src ++ ",target=" ++ target ++ ",type=bind"

/-- Docker invocation assembly (lines 152-168):
`cmd = run_cmd + mount_args + env_args + other_args + [build_image] + script_args`,
where `other_args` has `--rm` appended first when `args.remove_container`. -/
def mkCmd (args : Args) (build_image build_script : String) : List String :=
  let runPart : List String := ["docker", "run"]
  let mount_args : List String :=
    ["--mount", mountArg args.recipes_dir args.recipes_mount,
     "--mount", mountArg args.artefacts_dir args.artefacts_mount]
  let env_args : List String :=
    ["-e", "CONDA_USER_ID=" ++ toString args.conda_uid,
     "-e", "CONDA_GROUP_ID=" ++ toString args.conda_gid]
  let other_args : List String := ["-i"]
  let script_args : List String := ["/bin/sh", "-c", build_script]
  let other_args :=
    if args.remove_container then other_args ++ ["--rm"] else other_args
  runPart ++ mount_args ++ env_args ++ other_args ++ [build_image] ++ script_args

/-- The full execution plan derived for one record. -/
def planCmd (args : Args) (r : BuildRecord) : List String :=
  mkCmd args (selectImage args r.name r.version) (buildScript args r.path)

/-- Result of one `docker run` invocation: `success` is whether the
process exited with status 0, `output` its combined stdout/stderr. -/
structure ExecResult where
  success : Bool
  output : String

/-- Externally visible effects of a run, in order. -/
inductive Event where
  | pull (image : String)
  | dryRunLog (cmd : List String)
  | execOk (cmd : List String) (output : String)
  | execFail (cmd : List String) (output : String)
deriving DecidableEq

/-- Final process status: `ok` falls off the end of the script (exit 0),
`buildFailed` is the explicit `exit(1)`, `parseError` is the uncaught
`ValueError` from unpacking a malformed line (interpreter exits 1). -/
inductive Status where
  | ok
  | buildFailed
  | parseError
deriving DecidableEq

/-- Process exit status for each terminal state. -/
def exitCode : Status → Nat
  | Status.ok => 0
  | Status.buildFailed => 1
  | Status.parseError => 1

/-- The `docker pull` issued inside the loop body (line 138): only when
the record matched the irods special case. -/
def pullsOf (args : Args) (r : BuildRecord) : List Event :=
  if r.name = "irods" ∧ strSlice r.version 4 = "4.1." then
    [Event.pull args.irods_build_image]
  else
    []

/-- One loop iteration (lines 129-191) for an already-read line, given
the oracle result for this iteration's would-be `docker run`.
Returns `none` on a malformed line (fatal `ValueError`); otherwise the
events of the iteration and whether `fail` was set by it. -/
def processLine (args : Args) (res : ExecResult) (line : String) :
    Option (List Event × Bool) :=
  match parseLine line with
  | none => none
  | some r =>
    let image := selectImage args r.name r.version
    let pulls := pullsOf args r
    let cmd := mkCmd args image (buildScript args r.path)
    if args.dry_run then
      some (pulls ++ [Event.dryRunLog cmd], false)
    else if res.success then
      some (pulls ++ [Event.execOk cmd res.output], false)
    else
      some (pulls ++ [Event.execFail cmd res.output], true)

/-- The `for line in sys.stdin.readlines()` loop, threading the `fail`
flag and the oracle index; aborts with `parseError` at the first
malformed line, keeping the events already produced. -/
def runLines (args : Args) (exec : Nat → ExecResult) :
    Nat → Bool → List String → List Event × Status
  | _, fl, [] => ([], if fl then Status.buildFailed else Status.ok)
  | i, fl, line :: rest =>
    match processLine args (exec i) line with
    | none => ([], Status.parseError)
    | some (evs, f) =>
      let r := runLines args exec (i + 1) (fl || f) rest
      (evs ++ r.1, r.2)

/-- The whole run: `docker_pull(args.conda_build_image)` (line 125),
then the loop with `fail = False`, then `if fail: exit(1)`. -/
def runBatch (args : Args) (exec : Nat → ExecResult) (lines : List String) :
    List Event × Status :=
  let r := runLines args exec 0 false lines
  (Event.pull args.conda_build_image :: r.1, r.2)

/-! ### Trace characterization -/

/-- The record a well-formed line parses to (dummy on malformed lines,
only ever used under a well-formedness hypothesis). -/
def recordOf (l : String) : BuildRecord :=
  (parseLine l).getD ⟨"", "", ""⟩

/-- The execution plan a line gives rise to. -/
def attemptOf (args : Args) (l : String) : List String :=
  planCmd args (recordOf l)

/-- The logging/execution event of one iteration, after any pull. -/
def attemptEvent (args : Args) (res : ExecResult) (r : BuildRecord) : Event :=
  if args.dry_run then Event.dryRunLog (planCmd args r)
  else if res.success then Event.execOk (planCmd args r) res.output
  else Event.execFail (planCmd args r) res.output

/-- The events of processing a list of well-formed lines starting at
oracle index `i`. -/
def eventsOf (args : Args) (exec : Nat → ExecResult) :
    Nat → List String → List Event
  | _, [] => []
  | i, l :: ls =>
      (pullsOf args (recordOf l) ++ [attemptEvent args (exec i) (recordOf l)])
        ++ eventsOf args exec (i + 1) ls

/-- Whether any iteration sets the `fail` flag, starting at index `i`. -/
def anyFail (args : Args) (exec : Nat → ExecResult) :
    Nat → List String → Bool
  | _, [] => false
  | i, _ :: ls =>
      (!args.dry_run && !(exec i).success) || anyFail args exec (i + 1) ls

lemma processLine_wf (args : Args) (res : ExecResult) (l : String)
    (r : BuildRecord) (h : parseLine l = some r) :
    processLine args res l =
      some (pullsOf args r ++ [attemptEvent args res r],
            !args.dry_run && !res.success) := by
  unfold processLine attemptEvent planCmd
  rw [h]
  cases hd : args.dry_run <;> cases hs : res.success <;> simp

lemma recordOf_eq (l : String) (r : BuildRecord) (h : parseLine l = some r) :
    recordOf l = r := by
  unfold recordOf
  rw [h]
  rfl

/-- Main characterization of the loop on well-formed input. -/
lemma runLines_wf (args : Args) (exec : Nat → ExecResult) :
    ∀ (lines : List String) (i : Nat) (fl : Bool),
      (∀ l ∈ lines, (parseLine l).isSome) →
      runLines args exec i fl lines =
        (eventsOf args exec i lines,
         if fl || anyFail args exec i lines then Status.buildFailed
         else Status.ok) := by
  intro lines
  induction lines with
  | nil => intro i fl _; simp [runLines, eventsOf, anyFail]
  | cons l ls ih =>
    intro i fl h
    have hl : (parseLine l).isSome := h l (List.mem_cons_self l ls)
    obtain ⟨r, hr⟩ := Option.isSome_iff_exists.mp hl
    have hrest : ∀ x ∈ ls, (parseLine x).isSome :=
      fun x hx => h x (List.mem_cons_of_mem l hx)
    simp only [runLines, processLine_wf args (exec i) l r hr]
    rw [ih (i + 1) (fl || (!args.dry_run && !(exec i).success)) hrest]
    simp [eventsOf, anyFail, recordOf_eq l r hr, Bool.or_assoc]

/-- The loop aborts at the first malformed line, keeping earlier events. -/
lemma runLines_malformed (args : Args) (exec : Nat → ExecResult)
    (bad : String) (rest : List String) (hbad : parseLine bad = none) :
    ∀ (pre : List String) (i : Nat) (fl : Bool),
      (∀ l ∈ pre, (parseLine l).isSome) →
      runLines args exec i fl (pre ++ bad :: rest) =
        (eventsOf args exec i pre, Status.parseError) := by
  intro pre
  induction pre with
  | nil =>
    intro i fl _
    have hp : processLine args (exec i) bad = none := by
      unfold processLine
      rw [hbad]
    simp [runLines, hp, eventsOf]
  | cons l ls ih =>
    intro i fl h
    have hl : (parseLine l).isSome := h l (List.mem_cons_self l ls)
    obtain ⟨r, hr⟩ := Option.isSome_iff_exists.mp hl
    have hrest : ∀ x ∈ ls, (parseLine x).isSome :=
      fun x hx => h x (List.mem_cons_of_mem l hx)
    rw [show (l :: ls) ++ bad :: rest = l :: (ls ++ bad :: rest) from rfl]
    simp only [runLines, processLine_wf args (exec i) l r hr]
    rw [ih (i + 1) (fl || (!args.dry_run && !(exec i).success)) hrest]
    simp [eventsOf, recordOf_eq l r hr]

/-- The execution attempts (or dry-run plan descriptions) in a trace,
in order, as their docker command lines. -/
def attemptCmds : List Event → List (List String)
  | [] => []
  | Event.pull _ :: es => attemptCmds es
  | Event.dryRunLog c :: es => c :: attemptCmds es
  | Event.execOk c _ :: es => c :: attemptCmds es
  | Event.execFail c _ :: es => c :: attemptCmds es

/-- Whether an event is an invocation of the external build process. -/
def isExecEvent : Event → Bool
  | Event.execOk _ _ => true
  | Event.execFail _ _ => true
  | _ => false

lemma attemptCmds_append (a b : List Event) :
    attemptCmds (a ++ b) = attemptCmds a ++ attemptCmds b := by
  induction a with
  | nil => rfl
  | cons e es ih => cases e <;> simp [attemptCmds, ih]

lemma attemptCmds_pullsOf (args : Args) (r : BuildRecord) :
    attemptCmds (pullsOf args r) = [] := by
  unfold pullsOf
  split <;> rfl

lemma attemptCmds_attemptEvent (args : Args) (res : ExecResult)
    (r : BuildRecord) :
    attemptCmds [attemptEvent args res r] = [planCmd args r] := by
  unfold attemptEvent
  split
  · rfl
  · split <;> rfl

lemma attemptCmds_eventsOf (args : Args) (exec : Nat → ExecResult) :
    ∀ (lines : List String) (i : Nat),
      attemptCmds (eventsOf args exec i lines) =
        lines.map (attemptOf args) := by
  intro lines
  induction lines with
  | nil => intro i; rfl
  | cons l ls ih =>
    intro i
    simp only [eventsOf, attemptCmds_append, attemptCmds_pullsOf,
      attemptCmds_attemptEvent, ih (i + 1), List.map_cons]
    rfl

lemma anyFail_iff (args : Args) (exec : Nat → ExecResult) :
    ∀ (lines : List String) (j : Nat),
      anyFail args exec j lines = true ↔
        ∃ i, i < lines.length ∧ args.dry_run = false ∧
          (exec (j + i)).success = false := by
  intro lines
  induction lines with
  | nil => intro j; simp [anyFail]
  | cons l ls ih =>
    intro j
    simp only [anyFail, Bool.or_eq_true, Bool.and_eq_true, Bool.not_eq_true',
      ih (j + 1), List.length_cons]
    constructor
    · rintro (⟨hd, hs⟩ | ⟨i, hi, hd, hs⟩)
      · exact ⟨0, Nat.succ_pos _, hd, by simpa using hs⟩
      · exact ⟨i + 1, by omega, hd, by
          have : j + 1 + i = j + (i + 1) := by omega
          rwa [this] at hs⟩
    · rintro ⟨i, hi, hd, hs⟩
      cases i with
      | zero => exact Or.inl ⟨hd, by simpa using hs⟩
      | succ k =>
        refine Or.inr ⟨k, by omega, hd, ?_⟩
        have : j + 1 + k = j + (k + 1) := by omega
        rwa [this]

lemma execFail_mem_eventsOf (args : Args) (exec : Nat → ExecResult) :
    ∀ (lines : List String) (j i : Nat),
      i < lines.length → args.dry_run = false →
      (exec (j + i)).success = false →
      Event.execFail (attemptOf args (lines.getD i ""))
          (exec (j + i)).output ∈ eventsOf args exec j lines := by
  intro lines
  induction lines with
  | nil => intro j i hi; simp at hi
  | cons l ls ih =>
    intro j i hi hd hs
    cases i with
    | zero =>
      simp only [eventsOf, Nat.add_zero] at *
      refine List.mem_append.mpr (Or.inl (List.mem_append.mpr (Or.inr ?_)))
      simp [attemptEvent, hd, hs, attemptOf]
    | succ k =>
      simp only [eventsOf]
      refine List.mem_append.mpr (Or.inr ?_)
      have hk : k < ls.length := by simpa using hi
      have harith : j + (k + 1) = (j + 1) + k := by omega
      rw [harith] at hs ⊢
      simpa using ih (j + 1) k hk hd hs

lemma anyFail_dry (args : Args) (exec : Nat → ExecResult)
    (hd : args.dry_run = true) :
    ∀ (lines : List String) (j : Nat), anyFail args exec j lines = false := by
  intro lines
  induction lines with
  | nil => intro j; rfl
  | cons l ls ih => intro j; simp [anyFail, hd, ih (j + 1)]

lemma eventsOf_dry (args : Args) (exec : Nat → ExecResult)
    (hd : args.dry_run = true) :
    ∀ (lines : List String) (j : Nat),
      eventsOf args exec j lines =
        List.flatten (lines.map (fun l =>
          pullsOf args (recordOf l)
            ++ [Event.dryRunLog (attemptOf args l)])) := by
  intro lines
  induction lines with
  | nil => intro j; rfl
  | cons l ls ih =>
    intro j
    simp [eventsOf, ih (j + 1), attemptEvent, hd, attemptOf]

lemma isExecEvent_eventsOf_dry (args : Args) (exec : Nat → ExecResult)
    (hd : args.dry_run = true) :
    ∀ (lines : List String) (j : Nat) (e : Event),
      e ∈ eventsOf args exec j lines → isExecEvent e = false := by
  intro lines
  induction lines with
  | nil => intro j e he; simp [eventsOf] at he
  | cons l ls ih =>
    intro j e he
    simp only [eventsOf, List.mem_append] at he
    rcases he with (he | he) | he
    · unfold pullsOf at he
      split at he <;> simp at he
      · rw [he]; rfl
    · simp at he
      rw [he]
      simp [attemptEvent, hd, isExecEvent]
    · exact ih (j + 1) e he

/-! ### Spec-side formulations -/

/-- Spec wording: the string `s` starts with the literal `p`. -/
def startsWithPre (p s : String) : Prop :=
  ∃ t : List Char, s.data = p.data ++ t

lemma strSlice_eq_iff (v : String) :
    strSlice v 4 = "4.1." ↔ startsWithPre "4.1." v := by
  unfold strSlice startsWithPre
  rw [String.ext_iff]
  show v.data.take 4 = "4.1.".data ↔ _
  constructor
  · intro h
    refine ⟨v.data.drop 4, ?_⟩
    conv_lhs => rw [← List.take_append_drop 4 v.data]
    rw [h]
  · rintro ⟨t, ht⟩
    rw [ht]
    have hlen : ("4.1.".data).length = 4 := by decide
    conv_lhs => rw [← hlen]
    rw [List.take_left]

/-- Per the spec: one channel-adding statement. -/
def channelStmt (c : String) : String :=
  "conda config --add channels " ++ c ++ " ; "

/-- The spec's description of the assembled script: export statement,
auto-update-disabling statement, the channel statements joined in
configured order, then the cd-and-build step. -/
def buildScriptSpec (args : Args) (path : String) : String :=
  ("export CONDA_BLD_PATH=\"" ++ args.artefacts_mount ++ "\" ; ")
    ++ "conda config --set auto_update_conda False ; "
    ++ String.join (args.build_channel.map channelStmt)
    ++ ("cd \"" ++ args.recipes_mount ++ "\" && conda build " ++ path)

/-- A character list whose last non-whitespace character is `;`. -/
def semiTermL (cs : List Char) : Bool :=
  match cs.reverse.dropWhile Char.isWhitespace with
  | [] => false
  | c :: _ => c == ';'

/-- A shell fragment is `;`-terminated when its last non-whitespace
character is `;`. -/
def semiTerminated (s : String) : Bool :=
  semiTermL s.data

lemma dropWhile_append_of_ne_nil {p : Char → Bool} :
    ∀ (a b : List Char), a.dropWhile p ≠ [] →
      (a ++ b).dropWhile p = a.dropWhile p ++ b := by
  intro a
  induction a with
  | nil => intro b h; simp [List.dropWhile] at h
  | cons c cs ih =>
    intro b h
    by_cases hp : p c
    · simp only [List.dropWhile_cons, hp, if_true] at h ⊢
      simp only [List.cons_append, List.dropWhile_cons, hp, if_true]
      exact ih b h
    · simp [List.cons_append, List.dropWhile_cons, hp]

lemma semiTerminated_append (s t : String)
    (h : semiTerminated t = true) : semiTerminated (s ++ t) = true := by
  unfold semiTerminated semiTermL at *
  rw [String.data_append, List.reverse_append]
  have hne : t.data.reverse.dropWhile Char.isWhitespace ≠ [] := by
    intro hnil
    rw [hnil] at h
    simp at h
  rw [dropWhile_append_of_ne_nil _ _ hne]
  revert h
  cases hcase : t.data.reverse.dropWhile Char.isWhitespace with
  | nil => intro h; simp at h
  | cons c cs => intro h; simpa using h

lemma join_cons (s : String) (l : List String) :
    String.join (s :: l) = s ++ String.join l := by
  have key : ∀ (l : List String) (a : String),
      l.foldl (fun r t => r ++ t) a = a ++ l.foldl (fun r t => r ++ t) "" := by
    intro l
    induction l with
    | nil => intro a; simp
    | cons x xs ih =>
      intro a
      simp only [List.foldl_cons, String.empty_append]
      rw [ih (a ++ x), ih x, String.append_assoc]
  show (s :: l).foldl (fun r t => r ++ t) "" = _
  simp only [List.foldl_cons, String.empty_append]
  exact key l s

lemma foldl_append_join (f : String → String) :
    ∀ (l : List String) (acc : String),
      l.foldl (fun a c => a ++ f c) acc =
        acc ++ String.join (l.map f) := by
  intro l
  induction l with
  | nil =>
    intro acc
    simp [String.join]
  | cons c cs ih =>
    intro acc
    simp only [List.foldl_cons, List.map_cons, ih, join_cons]
    rw [String.append_assoc]

lemma buildScript_eq_spec (args : Args) (path : String) :
    buildScript args path = buildScriptSpec args path := by
  show
    (args.build_channel.foldl (fun acc c => acc ++ channelStmt c)
        (("export CONDA_BLD_PATH=\"" ++ args.artefacts_mount ++ "\" ; ")
          ++ "conda config --set auto_update_conda False ; "))
      ++ ("cd \"" ++ args.recipes_mount ++ "\" && conda build " ++ path)
    = buildScriptSpec args path
  rw [foldl_append_join channelStmt args.build_channel]
  rfl

lemma attemptCmds_pull_cons (x : String) (es : List Event) :
    attemptCmds (Event.pull x :: es) = attemptCmds es := rfl

/-- The plan descriptions emitted at informational verbosity
(`log.info('Docker command: ...')`), in order. -/
def dryRunCmds : List Event → List (List String)
  | [] => []
  | Event.dryRunLog c :: es => c :: dryRunCmds es
  | _ :: es => dryRunCmds es

lemma dryRunCmds_append (a b : List Event) :
    dryRunCmds (a ++ b) = dryRunCmds a ++ dryRunCmds b := by
  induction a with
  | nil => rfl
  | cons e es ih => cases e <;> simp [dryRunCmds, ih]

lemma dryRunCmds_pullsOf (args : Args) (r : BuildRecord) :
    dryRunCmds (pullsOf args r) = [] := by
  unfold pullsOf
  split <;> rfl

lemma dryRunCmds_eventsOf (args : Args) (exec : Nat → ExecResult)
    (hdry : args.dry_run = true) :
    ∀ (lines : List String) (i : Nat),
      dryRunCmds (eventsOf args exec i lines) =
        lines.map (attemptOf args) := by
  intro lines
  induction lines with
  | nil => intro i; rfl
  | cons l ls ih =>
    intro i
    simp only [eventsOf, dryRunCmds_append, dryRunCmds_pullsOf,
      attemptEvent, hdry, if_true, ih (i + 1), List.map_cons]
    rfl

/-! ### Example values used by the witnesses -/

def argsEx : Args :=
  { recipes_dir := "/home/user/conda-recipes"
    recipes_mount := "/home/conda/recipes"
    artefacts_dir := "/home/user/conda-artefacts"
    artefacts_mount := "/opt/conda/conda-bld"
    build_channel := ["chanA", "chanB"]
    irods_build_image := "wsinpg/ub-12.04-conda-irods:latest"
    conda_build_image := "wsinpg/ub-12.04-conda:latest"
    remove_container := false
    conda_uid := 1000
    conda_gid := 1000
    dry_run := false }

def argsDry : Args := { argsEx with dry_run := true }

def argsNC : Args := { argsEx with build_channel := [] }

def execEx : Nat → ExecResult :=
  fun i => if i = 1 then ⟨false, "boom"⟩ else ⟨true, "fine"⟩

def linesEx : List String :=
  ["pkga 1.0 recipes/a", "pkgb 2.0 recipes/b", "irods 4.1.10 recipes/irods"]

/-! ### Claims -/

/-- C1: a record whose build process exits non-zero does not abort the
run: the failure is captured (as an error-logged event carrying the
process's combined output), the aggregate `fail` flag is set (terminal
status `buildFailed`), and every record of the input, later ones
included, is still attempted in order. -/
theorem C1_failure_isolation (args : Args) (exec : Nat → ExecResult)
    (lines : List String) (i : Nat)
    (hwf : ∀ l ∈ lines, (parseLine l).isSome)
    (hdry : args.dry_run = false)
    (hi : i < lines.length)
    (hfail : (exec i).success = false) :
    attemptCmds (runBatch args exec lines).1 = lines.map (attemptOf args) ∧
    (runBatch args exec lines).2 = Status.buildFailed ∧
    Event.execFail (attemptOf args (lines.getD i "")) (exec i).output
      ∈ (runBatch args exec lines).1 := by
  have hrw := runLines_wf args exec lines 0 false hwf
  have hev : (runBatch args exec lines).1 =
      Event.pull args.conda_build_image :: eventsOf args exec 0 lines := by
    simp only [runBatch, hrw]
  have hst : (runBatch args exec lines).2 =
      (if anyFail args exec 0 lines then Status.buildFailed
       else Status.ok) := by
    simp only [runBatch, hrw, Bool.false_or]
  refine ⟨?_, ?_, ?_⟩
  · rw [hev, attemptCmds_pull_cons, attemptCmds_eventsOf]
  · have hany : anyFail args exec 0 lines = true :=
      (anyFail_iff args exec lines 0).mpr
        ⟨i, hi, hdry, by simpa using hfail⟩
    rw [hst, hany]
    rfl
  · rw [hev]
    refine List.mem_cons_of_mem _ ?_
    have := execFail_mem_eventsOf args exec lines 0 i hi hdry
      (by simpa using hfail)
    simpa using this

theorem C1_witness :
    attemptCmds (runBatch argsEx execEx linesEx).1
        = linesEx.map (attemptOf argsEx) ∧
    (runBatch argsEx execEx linesEx).2 = Status.buildFailed ∧
    Event.execFail (attemptOf argsEx (linesEx.getD 1 "")) (execEx 1).output
      ∈ (runBatch argsEx execEx linesEx).1 :=
  C1_failure_isolation argsEx execEx linesEx 1 (by decide) rfl
    (by decide) (by decide)

/-- C2: over well-formed input the exit status is a pure function of
whether any per-record failure occurred: 0 when no record failed (all
skipped under dry-run or built successfully), 1 when at least one
record's build failed. -/
theorem C2_exit_status (args : Args) (exec : Nat → ExecResult)
    (lines : List String)
    (hwf : ∀ l ∈ lines, (parseLine l).isSome) :
    ((runBatch args exec lines).2 = Status.ok ∨
      (runBatch args exec lines).2 = Status.buildFailed) ∧
    exitCode (runBatch args exec lines).2 =
      (if anyFail args exec 0 lines then 1 else 0) ∧
    (anyFail args exec 0 lines = true ↔
      ∃ i, i < lines.length ∧ args.dry_run = false ∧
        (exec i).success = false) := by
  have hrw := runLines_wf args exec lines 0 false hwf
  have hst : (runBatch args exec lines).2 =
      (if anyFail args exec 0 lines then Status.buildFailed
       else Status.ok) := by
    simp only [runBatch, hrw, Bool.false_or]
  refine ⟨?_, ?_, ?_⟩
  · rw [hst]
    by_cases h : anyFail args exec 0 lines = true
    · exact Or.inr (by rw [h]; rfl)
    · rw [Bool.not_eq_true] at h
      exact Or.inl (by rw [h]; rfl)
  · rw [hst]
    by_cases h : anyFail args exec 0 lines = true
    · rw [h]; rfl
    · rw [Bool.not_eq_true] at h
      rw [h]; rfl
  · have := anyFail_iff args exec lines 0
    simpa using this

theorem C2_witness :
    ((runBatch argsEx execEx linesEx).2 = Status.ok ∨
      (runBatch argsEx execEx linesEx).2 = Status.buildFailed) ∧
    exitCode (runBatch argsEx execEx linesEx).2 =
      (if anyFail argsEx execEx 0 linesEx then 1 else 0) ∧
    (anyFail argsEx execEx 0 linesEx = true ↔
      ∃ i, i < linesEx.length ∧ argsEx.dry_run = false ∧
        (execEx i).success = false) :=
  C2_exit_status argsEx execEx linesEx (by decide)

/-- C3: image selection returns the irods-specific image exactly for
records named "irods" whose version starts with the literal "4.1.",
and the default image in every other case; it is a total function. -/
theorem C3_image_selection (args : Args) (name version : String) :
    (name = "irods" ∧ startsWithPre "4.1." version →
      selectImage args name version = args.irods_build_image) ∧
    (¬(name = "irods" ∧ startsWithPre "4.1." version) →
      selectImage args name version = args.conda_build_image) ∧
    (args.irods_build_image ≠ args.conda_build_image →
      (selectImage args name version = args.irods_build_image ↔
        name = "irods" ∧ startsWithPre "4.1." version)) := by
  by_cases h : name = "irods" ∧ strSlice version 4 = "4.1."
  · have h' : name = "irods" ∧ startsWithPre "4.1." version :=
      ⟨h.1, (strSlice_eq_iff version).mp h.2⟩
    have hsel : selectImage args name version = args.irods_build_image := by
      unfold selectImage
      rw [if_pos h]
    exact ⟨fun _ => hsel, fun hc => absurd h' hc,
      fun _ => ⟨fun _ => h', fun _ => hsel⟩⟩
  · have h' : ¬(name = "irods" ∧ startsWithPre "4.1." version) := fun hc =>
      h ⟨hc.1, (strSlice_eq_iff version).mpr hc.2⟩
    have hsel : selectImage args name version = args.conda_build_image := by
      unfold selectImage
      rw [if_neg h]
    refine ⟨fun hc => absurd hc h', fun _ => hsel, fun hne => ?_⟩
    exact ⟨fun he => absurd (he.symm.trans hsel) hne,
      fun hc => absurd hc h'⟩

theorem C3_witness :
    selectImage argsEx "irods" "4.1.10" = argsEx.irods_build_image :=
  (C3_image_selection argsEx "irods" "4.1.10").1
    ⟨rfl, ⟨['1', '0'], by decide⟩⟩

/-- C4: over well-formed input, exactly one execution attempt (or
dry-run plan description) is produced per input line, in input order:
the attempted docker command lines are precisely the per-line plans, in
order, so their number equals the number of input lines. -/
theorem C4_one_attempt_per_line (args : Args) (exec : Nat → ExecResult)
    (lines : List String)
    (hwf : ∀ l ∈ lines, (parseLine l).isSome) :
    attemptCmds (runBatch args exec lines).1 = lines.map (attemptOf args) ∧
    (attemptCmds (runBatch args exec lines).1).length = lines.length := by
  have hrw := runLines_wf args exec lines 0 false hwf
  have hev : (runBatch args exec lines).1 =
      Event.pull args.conda_build_image :: eventsOf args exec 0 lines := by
    simp only [runBatch, hrw]
  constructor
  · rw [hev, attemptCmds_pull_cons, attemptCmds_eventsOf]
  · rw [hev, attemptCmds_pull_cons, attemptCmds_eventsOf, List.length_map]

theorem C4_witness :
    attemptCmds (runBatch argsEx execEx linesEx).1
        = linesEx.map (attemptOf argsEx) ∧
    (attemptCmds (runBatch argsEx execEx linesEx).1).length
        = linesEx.length :=
  C4_one_attempt_per_line argsEx execEx linesEx (by decide)

/-- C5 counterexample: the assembled script for a concrete record and
configuration. Its final appended step, `cd "..." && conda build rp`,
is the script's suffix, and the script does not end in a `;`-terminated
statement — so not every assembly step appends a `;`-terminated shell
statement as the claim states. -/
theorem C5_counterexample :
    buildScript argsNC "rp" =
      "export CONDA_BLD_PATH=\"/opt/conda/conda-bld\" ; conda config --set auto_update_conda False ; cd \"/home/conda/recipes\" && conda build rp" ∧
    semiTerminated
      "cd \"/home/conda/recipes\" && conda build rp" = false ∧
    semiTerminated (buildScript argsNC "rp") = false := by
  refine ⟨by decide, by decide, by decide⟩

/-- C5 (amended): the assembled script is, in order, the export of the
artefact output path, the auto-update-disabling statement, one
channel-adding statement per configured channel in configured order
(none when the channel list is empty), and finally the change of
directory plus build invocation; the first three kinds of steps each
append a `;`-terminated statement, while the final cd-and-build step is
not `;`-terminated. -/
theorem C5_script_assembly (args : Args) (path : String) :
    buildScript args path = buildScriptSpec args path ∧
    semiTerminated
      ("export CONDA_BLD_PATH=\"" ++ args.artefacts_mount ++ "\" ; ")
        = true ∧
    semiTerminated "conda config --set auto_update_conda False ; " = true ∧
    (∀ c, semiTerminated (channelStmt c) = true) ∧
    (args.build_channel = [] →
      buildScript args path =
        ("export CONDA_BLD_PATH=\"" ++ args.artefacts_mount ++ "\" ; ")
          ++ "conda config --set auto_update_conda False ; "
          ++ ("cd \"" ++ args.recipes_mount ++ "\" && conda build "
                ++ path)) := by
  refine ⟨buildScript_eq_spec args path, ?_, by decide, ?_, ?_⟩
  · exact semiTerminated_append _ "\" ; " (by decide)
  · intro c
    exact semiTerminated_append _ " ; " (by decide)
  · intro hc
    rw [buildScript_eq_spec args path]
    unfold buildScriptSpec
    rw [hc]
    simp [String.join]

theorem C5_witness :
    buildScript argsNC "rp" = buildScriptSpec argsNC "rp" :=
  (C5_script_assembly argsNC "rp").1

/-- C6: the docker invocation has exactly the ordered shape: run
subcommand, recipes then artefacts bind mounts, user-id then group-id
environment variables, the interactive flag, `--rm` exactly when
`remove_container` is set, the resolved image, and the shell with the
assembled script as its single `-c` argument. -/
theorem C6_cmd_shape (args : Args) (image script : String) :
    mkCmd args image script =
      ["docker", "run",
       "--mount", mountArg args.recipes_dir args.recipes_mount,
       "--mount", mountArg args.artefacts_dir args.artefacts_mount,
       "-e", "CONDA_USER_ID=" ++ toString args.conda_uid,
       "-e", "CONDA_GROUP_ID=" ++ toString args.conda_gid,
       "-i"]
      ++ (if args.remove_container then ["--rm"] else [])
      ++ [image, "/bin/sh", "-c", script] := by
  cases h : args.remove_container <;> simp [mkCmd, h]

/-- C7: under dry-run the external build process is never launched for
any record: no execution event appears in the trace, the plan is
emitted at informational verbosity for each record — the plan
descriptions are exactly the per-line plans, one per line in input
order — every record is treated as a success, and the batch terminates
with status `ok` and exit status 0. -/
theorem C7_dry_run (args : Args) (exec : Nat → ExecResult)
    (lines : List String)
    (hdry : args.dry_run = true)
    (hwf : ∀ l ∈ lines, (parseLine l).isSome) :
    (∀ e ∈ (runBatch args exec lines).1, isExecEvent e = false) ∧
    dryRunCmds (runBatch args exec lines).1 = lines.map (attemptOf args) ∧
    (runBatch args exec lines).2 = Status.ok ∧
    exitCode (runBatch args exec lines).2 = 0 := by
  have hrw := runLines_wf args exec lines 0 false hwf
  have hev : (runBatch args exec lines).1 =
      Event.pull args.conda_build_image :: eventsOf args exec 0 lines := by
    simp only [runBatch, hrw]
  have hst : (runBatch args exec lines).2 = Status.ok := by
    simp only [runBatch, hrw, Bool.false_or]
    rw [anyFail_dry args exec hdry lines 0]
    rfl
  refine ⟨?_, ?_, hst, by rw [hst]; rfl⟩
  · intro e he
    rw [hev] at he
    rcases List.mem_cons.mp he with h | h
    · rw [h]; rfl
    · exact isExecEvent_eventsOf_dry args exec hdry lines 0 e h
  · rw [hev]
    rw [show dryRunCmds (Event.pull args.conda_build_image ::
        eventsOf args exec 0 lines) =
        dryRunCmds (eventsOf args exec 0 lines) from rfl]
    exact dryRunCmds_eventsOf args exec hdry lines 0

theorem C7_witness :
    (∀ e ∈ (runBatch argsDry execEx linesEx).1, isExecEvent e = false) ∧
    dryRunCmds (runBatch argsDry execEx linesEx).1
        = linesEx.map (attemptOf argsDry) ∧
    (runBatch argsDry execEx linesEx).2 = Status.ok ∧
    exitCode (runBatch argsDry execEx linesEx).2 = 0 :=
  C7_dry_run argsDry execEx linesEx rfl (by decide)

/-- C8: at the first malformed line (not exactly three fields) the run
aborts with a non-zero status: the trace is exactly the initial pull
plus the events of the well-formed records before the malformed line
(their effects kept, nothing rolled back), and no later record
contributes anything. -/
theorem C8_malformed_aborts (args : Args) (exec : Nat → ExecResult)
    (pre : List String) (bad : String) (rest : List String)
    (hwf : ∀ l ∈ pre, (parseLine l).isSome)
    (hbad : parseLine bad = none) :
    (runBatch args exec (pre ++ bad :: rest)).1 =
      Event.pull args.conda_build_image :: eventsOf args exec 0 pre ∧
    (runBatch args exec (pre ++ bad :: rest)).2 = Status.parseError ∧
    exitCode (runBatch args exec (pre ++ bad :: rest)).2 ≠ 0 := by
  have h := runLines_malformed args exec bad rest hbad pre 0 false hwf
  refine ⟨?_, ?_, ?_⟩
  · simp only [runBatch, h]
  · simp only [runBatch, h]
  · simp only [runBatch, h]
    intro hzero
    exact absurd hzero (by decide)

theorem C8_witness :
    (runBatch argsEx execEx
        (["pkga 1.0 recipes/a"] ++ "pkgb 2.0" :: ["pkgc 3.0 recipes/c"])).1
      = Event.pull argsEx.conda_build_image ::
          eventsOf argsEx execEx 0 ["pkga 1.0 recipes/a"] ∧
    (runBatch argsEx execEx
        (["pkga 1.0 recipes/a"] ++ "pkgb 2.0" :: ["pkgc 3.0 recipes/c"])).2
      = Status.parseError ∧
    exitCode (runBatch argsEx execEx
        (["pkga 1.0 recipes/a"] ++ "pkgb 2.0" :: ["pkgc 3.0 recipes/c"])).2
      ≠ 0 :=
  C8_malformed_aborts argsEx execEx ["pkga 1.0 recipes/a"] "pkgb 2.0"
    ["pkgc 3.0 recipes/c"] (by decide) (by decide)

/-- C9: under dry-run the pull side effects still occur: the trace is
exactly the pull of the default image, first, followed per record (in
order) by the pull of the irods image when that record resolves to it
and by the plan description; in particular the irods image is pulled
during every matching record's iteration. -/
theorem C9_dry_run_pulls (args : Args) (exec : Nat → ExecResult)
    (lines : List String)
    (hdry : args.dry_run = true)
    (hwf : ∀ l ∈ lines, (parseLine l).isSome) :
    (runBatch args exec lines).1 =
      Event.pull args.conda_build_image ::
        List.flatten (lines.map (fun l =>
          pullsOf args (recordOf l)
            ++ [Event.dryRunLog (attemptOf args l)])) ∧
    (∀ l ∈ lines,
      (recordOf l).name = "irods" ∧
          strSlice (recordOf l).version 4 = "4.1." →
        Event.pull args.irods_build_image ∈ (runBatch args exec lines).1) := by
  have hrw := runLines_wf args exec lines 0 false hwf
  have hev : (runBatch args exec lines).1 =
      Event.pull args.conda_build_image :: eventsOf args exec 0 lines := by
    simp only [runBatch, hrw]
  have hflat : (runBatch args exec lines).1 =
      Event.pull args.conda_build_image ::
        List.flatten (lines.map (fun l =>
          pullsOf args (recordOf l)
            ++ [Event.dryRunLog (attemptOf args l)])) := by
    rw [hev, eventsOf_dry args exec hdry lines 0]
  refine ⟨hflat, ?_⟩
  intro l hl hmatch
  rw [hflat]
  refine List.mem_cons_of_mem _ ?_
  refine List.mem_flatten.mpr
    ⟨pullsOf args (recordOf l) ++ [Event.dryRunLog (attemptOf args l)],
     List.mem_map_of_mem _ hl, ?_⟩
  refine List.mem_append.mpr (Or.inl ?_)
  unfold pullsOf
  rw [if_pos hmatch]
  exact List.mem_singleton.mpr rfl

theorem C9_witness :
    (runBatch argsDry execEx linesEx).1 =
      Event.pull argsDry.conda_build_image ::
        List.flatten (linesEx.map (fun l =>
          pullsOf argsDry (recordOf l)
            ++ [Event.dryRunLog (attemptOf argsDry l)])) ∧
    (∀ l ∈ linesEx,
      (recordOf l).name = "irods" ∧
          strSlice (recordOf l).version 4 = "4.1." →
        Event.pull argsDry.irods_build_image
          ∈ (runBatch argsDry execEx linesEx).1) :=
  C9_dry_run_pulls argsDry execEx linesEx rfl (by decide)

/-- C10: taking the first four characters of a version never fails;
with fewer than four characters the slice is the whole version, and a
record so short (for example name "irods", version "4.1") resolves to
the default build image. -/
theorem C10_short_version (args : Args) (name version : String)
    (h : version.data.length < 4) :
    selectImage args name version = args.conda_build_image ∧
    strSlice version 4 = version := by
  have hslice : strSlice version 4 = version := by
    unfold strSlice
    rw [List.take_of_length_le (Nat.le_of_lt h)]
  refine ⟨?_, hslice⟩
  unfold selectImage
  rw [if_neg]
  rintro ⟨-, h2⟩
  rw [hslice] at h2
  have hd : version.data = ("4.1." : String).data := congrArg String.data h2
  have hlen : version.data.length = 4 := by
    rw [hd]
    rfl
  omega

theorem C10_witness :
    selectImage argsEx "irods" "4.1" = argsEx.conda_build_image ∧
    strSlice "4.1" 4 = "4.1" :=
  C10_short_version argsEx "irods" "4.1" (by decide)

end CondaBuild
